import Mathlib

/-!
Shallow embedding of the graph derivation engine of the repository
(`graphrag/graph_processing.py`, `graphrag/graph_analysis.py`,
`graphrag/graph_visualization.py`) together with proofs about its filter,
metrics and annotation stages.

Conventions of the embedding:
* Python dicts that map node ids to `(name, entity_type)` pairs become
  association lists (`NodeTable`); dict-key membership becomes `containsKey`.
* Python floats (confidence values and thresholds) become rationals: the
  code only compares them, never does float-specific arithmetic.
* The `degree_count` dict becomes a total function `String → ℕ`, matching
  `degree_count.get(v, 0)`.
-/

namespace GraphRag

/-- An element of the `edges` list: `(source, target, relationship, confidence)`. -/
structure Edge where
  source : String
  target : String
  rel : String
  conf : ℚ
deriving DecidableEq

/-- The `nodes` dict of the raw graph: entries `(node_id, (name, entity_type))`
in insertion order. -/
abbrev NodeTable := List (String × String × String)

/-- The keyword arguments of `filter_graph_data`, with the Python defaults
`show_persons=True, show_orgs=True, show_gpe=True, show_laws=True,
min_degree=1, min_confidence=0.5`. -/
structure FilterConfig where
  showPersons : Bool := true
  showOrgs : Bool := true
  showGpe : Bool := true
  showLaws : Bool := true
  minDegree : ℚ := 1
  minConfidence : ℚ := ⟨1, 2, by decide, Nat.coprime_one_left 2⟩
deriving DecidableEq

theorem default_minConfidence_eq_half :
    (FilterConfig.minConfidence {}) = 1 / 2 := by
  show (⟨1, 2, by decide, Nat.coprime_one_left 2⟩ : ℚ) = 1 / 2
  rw [Rat.mk'_eq_divInt]
  norm_num [Rat.divInt_eq_div]

/-- `degree_count[v] = degree_count.get(v, 0) + 1`. -/
def bumpDegree (dc : String → ℕ) (v : String) : String → ℕ :=
  fun w => if w = v then dc v + 1 else dc w

/-- The degree-computation loop of `filter_graph_data`: for every edge with
`confidence >= min_confidence`, increment the counter of both its source and
its target. -/
def degreeLoop (minConfidence : ℚ) (dc : String → ℕ) : List Edge → (String → ℕ)
  | [] => dc
  | e :: es =>
      degreeLoop minConfidence
        (if minConfidence ≤ e.conf then bumpDegree (bumpDegree dc e.source) e.target else dc) es

/-- The `degree_count` dict after the loop, as a total function (`.get(v, 0)`). -/
def degreeCount (edges : List Edge) (minConfidence : ℚ) : String → ℕ :=
  degreeLoop minConfidence (fun _ => 0) edges

/-- The type test of the node filter:
`(show_persons and entity_type == "PERSON") or ... or (show_laws and entity_type == "LAW")`. -/
def typeAllowed (cfg : FilterConfig) (entityType : String) : Bool :=
  (cfg.showPersons && entityType == "PERSON") ||
  (cfg.showOrgs && entityType == "ORG") ||
  (cfg.showGpe && entityType == "GPE") ||
  (cfg.showLaws && entityType == "LAW")

/-- The whole node-retention test: type test and
`degree_count.get(node_id, 0) >= min_degree`. -/
def nodeKept (cfg : FilterConfig) (dc : String → ℕ) (nd : String × String × String) : Bool :=
  typeAllowed cfg nd.2.2 && decide (cfg.minDegree ≤ (dc nd.1 : ℚ))

/-- The `filtered_nodes` dict: the entries of `nodes` passing `nodeKept`,
in iteration order. -/
def filteredNodes (cfg : FilterConfig) (nodes : NodeTable) (edges : List Edge) : NodeTable :=
  nodes.filter (nodeKept cfg (degreeCount edges cfg.minConfidence))

/-- Dict-key membership, `v in filtered_nodes`. -/
def containsKey (t : NodeTable) (v : String) : Bool :=
  t.any (fun nd => nd.1 == v)

/-- The `filtered_edges` list comprehension:
keep an edge iff `source in filtered_nodes and target in filtered_nodes`. -/
def filteredEdges (fns : NodeTable) (edges : List Edge) : List Edge :=
  edges.filter (fun e => containsKey fns e.source && containsKey fns e.target)

/-- The body of `filter_graph_data` on a well-shaped `(nodes, edges)` pair. -/
def filterGraphCore (cfg : FilterConfig) (nodes : NodeTable) (edges : List Edge) :
    NodeTable × List Edge :=
  let fns := filteredNodes cfg nodes edges
  (fns, filteredEdges fns edges)

/-- The two exception classes the function can raise: the intended
`ValueError` of the shape check, and the `TypeError` that `len(raw_data)`
raises inside the message f-string when `raw_data` has no `__len__`. -/
inductive PyError where
  | valueError
  | typeError
deriving DecidableEq

/-- The shapes a Python caller can pass as `raw_data`: a 2-tuple
`(nodes, edges)`; a tuple of some other length; a non-tuple that has a
length (e.g. a bare list, recording that length); and a non-tuple without
`__len__` (e.g. `None` or an int). -/
inductive RawInput where
  | pair (nodes : NodeTable) (edges : List Edge)
  | tupleOfOtherLength (n : ℕ)
  | sizedNonTuple (n : ℕ)
  | unsizedNonTuple
deriving DecidableEq

/-- `filter_graph_data` with its guard: `raw_data` that is not a 2-tuple takes
the `raise ValueError(f"... {len(raw_data)}")` path, and on an argument with
no `__len__` that f-string itself raises `TypeError` before the `ValueError`
is constructed. -/
def filter_graph_data (cfg : FilterConfig) : RawInput → Except PyError (NodeTable × List Edge)
  | .pair nodes edges => .ok (filterGraphCore cfg nodes edges)
  | .tupleOfOtherLength _ => .error .valueError
  | .sizedNonTuple _ => .error .valueError
  | .unsizedNonTuple => .error .typeError

/-- How much one edge adds to `v`'s degree counter: nothing when its
confidence is below the threshold, otherwise one per endpoint equal to `v`
(two for a qualifying self-loop at `v`). -/
def edgeContribution (minConfidence : ℚ) (v : String) (e : Edge) : ℕ :=
  if minConfidence ≤ e.conf then
    (if e.source = v then 1 else 0) + (if e.target = v then 1 else 0)
  else 0

theorem bumpDegree_apply (dc : String → ℕ) (u v : String) :
    bumpDegree dc u v = dc v + (if u = v then 1 else 0) := by
  unfold bumpDegree
  by_cases h : v = u
  · subst h; simp
  · have h' : ¬u = v := fun hx => h hx.symm
    simp [h, h']

theorem degreeLoop_eq (minConfidence : ℚ) (es : List Edge) (dc : String → ℕ) (v : String) :
    degreeLoop minConfidence dc es v
      = dc v + (es.map (edgeContribution minConfidence v)).sum := by
  induction es generalizing dc with
  | nil => simp [degreeLoop]
  | cons e es ih =>
      rw [degreeLoop, ih]
      by_cases h : minConfidence ≤ e.conf
      · simp only [h, if_true, edgeContribution, List.map_cons, List.sum_cons,
          bumpDegree_apply]
        ring
      · simp only [h, if_false, edgeContribution, List.map_cons, List.sum_cons]
        ring

theorem degreeCount_eq (edges : List Edge) (minConfidence : ℚ) (v : String) :
    degreeCount edges minConfidence v
      = (edges.map (edgeContribution minConfidence v)).sum := by
  unfold degreeCount
  rw [degreeLoop_eq]
  simp

/-- The key list of a node table (the dict's keys, in order). -/
def tableKeys (t : NodeTable) : List String :=
  t.map (fun nd => nd.1)

/-- All endpoints of an edge list, in order (source before target per edge). -/
def endpointList (edges : List Edge) : List String :=
  edges.foldr (fun e acc => e.source :: e.target :: acc) []

theorem mem_endpointList (edges : List Edge) (v : String) :
    v ∈ endpointList edges ↔ ∃ e ∈ edges, v = e.source ∨ v = e.target := by
  induction edges with
  | nil => simp [endpointList]
  | cons e es ih =>
      simp only [endpointList, List.foldr_cons, List.mem_cons] at *
      constructor
      · rintro (h | h | h)
        · exact ⟨e, Or.inl rfl, Or.inl h⟩
        · exact ⟨e, Or.inl rfl, Or.inr h⟩
        · obtain ⟨e', he', hv⟩ := ih.1 h
          exact ⟨e', Or.inr he', hv⟩
      · rintro ⟨e', he' | he', hv⟩
        · subst he'
          rcases hv with h | h
          · exact Or.inl h
          · exact Or.inr (Or.inl h)
        · exact Or.inr (Or.inr (ih.2 ⟨e', he', hv⟩))

/-- Key set of the map returned by `compute_pagerank` in
`graph_analysis.py`.  The guard is from the source:
`if not nodes or not edges: return {}`.  Past the guard the source inserts
every key of `nodes` and both endpoints of every edge into a `DiGraph`.
Modelled from the spec: `nx.pagerank` is an external library call and its
score values are not embedded; the spec states it returns a
`map<NodeID, float>` with one entry per node of the built graph, so only the
key set of that map is modelled here. -/
def compute_pagerank_keys (nodes : NodeTable) (edges : List Edge) : List String :=
  if nodes.isEmpty || edges.isEmpty then []
  else (tableKeys nodes ++ endpointList edges).dedup

/-- The `ENTITY_COLORS` table of `graph_visualization.py`. -/
def ENTITY_COLORS : List (String × String) :=
  [("PERSON", "#ff4c4c"), ("ORG", "#4caf50"), ("GPE", "#3498db"),
   ("LAW", "#f39c12"), ("DATE", "#8e44ad"), ("Unknown", "#95a5a6")]

/-- `ENTITY_COLORS.get(node_type, "#95a5a6")`. -/
def colorFor (entityType : String) : String :=
  (ENTITY_COLORS.lookup entityType).getD "#95a5a6"

/-- Python `str.lower()`, character-wise (the same per-character lowering as
Lean's `String.toLower`, written over the character list so the kernel can
evaluate it). -/
def strLower (s : String) : String :=
  ⟨s.data.map Char.toLower⟩

/-- The search test of `create_network_graph`:
`if search_query and search_query.lower() in node_name.lower()`.
`search_query` defaults to `None`; Python truthiness makes both `None` and
the empty string fail the first conjunct; the second conjunct is the
case-insensitive substring test. -/
def queryHits (q : Option String) (nodeName : String) : Bool :=
  match q with
  | none => false
  | some s => !(s == "") && decide ((strLower s).toList <:+: (strLower nodeName).toList)

/-- Python truthiness of the optional search string. -/
def pyTruthy : Option String → Bool
  | none => false
  | some s => !(s == "")

/-- The color given to one node: the bright-yellow highlight on a search hit,
otherwise the entity-type color. -/
def nodeColor (q : Option String) (nd : String × String × String) : String :=
  if queryHits q nd.2.1 then "#FFD700" else colorFor nd.2.2

/-- The `search_focus_node` variable after the node loop: starts at `None`
and is overwritten with the node id of every search hit, so it ends holding
the id of the last hit in iteration order. -/
def searchFocusNode (q : Option String) (nodes : NodeTable) : Option String :=
  nodes.foldl (fun acc nd => if queryHits q nd.2.1 then some nd.1 else acc) none

/-- The focus payload put into `net.set_options`:
`{"focus": {"node": search_focus_node, "scale": 2.0}}`. -/
structure FocusDirective where
  nodeId : String
  zoomScale : ℚ
deriving DecidableEq

/-- The `if search_focus_node:` emission at the end of `create_network_graph`:
the options block (the focus directive) is written only when the variable is
truthy, so an empty-string node id suppresses it exactly like `None`. -/
def focusDirective (q : Option String) (nodes : NodeTable) : Option FocusDirective :=
  match searchFocusNode q nodes with
  | none => none
  | some s => if s == "" then none else some ⟨s, 2⟩

/-- Declarative counterpart of `searchFocusNode`: the last node of the table
whose display name the query hits. -/
def lastMatch (q : Option String) (nodes : NodeTable) :
    Option (String × String × String) :=
  (nodes.filter (fun nd => queryHits q nd.2.1)).getLast?

theorem searchFocusNode_loop (q : Option String) (nodes : NodeTable)
    (acc : Option String) :
    nodes.foldl (fun a nd => if queryHits q nd.2.1 then some nd.1 else a) acc
      = ((nodes.filter (fun nd => queryHits q nd.2.1)).getLast?.map
          (fun nd => (some nd.1 : Option String))).getD acc := by
  induction nodes using List.reverseRecOn generalizing acc with
  | nil => simp
  | append_singleton l x ih =>
      rw [List.foldl_append, List.filter_append]
      by_cases h : queryHits q x.2.1
      · simp [h]
      · simp [h, ih]

/-- Mapped sums are unchanged by dropping elements mapped to zero. -/
theorem sum_map_filter_of_zero {α : Type} (f : α → ℕ) (p : α → Bool) (l : List α)
    (hz : ∀ a ∈ l, p a = false → f a = 0) :
    (l.map f).sum = ((l.filter p).map f).sum := by
  induction l with
  | nil => simp
  | cons a l ih =>
      have ih' := ih (fun a ha => hz a (List.mem_cons_of_mem _ ha))
      by_cases h : p a = true
      · simp [h, List.filter_cons, ih']
      · have h0 := hz a (List.mem_cons_self a l) (by simpa using h)
        simp [h, List.filter_cons, ih', h0]

/-- Filtering with a pointwise-stronger predicate yields a shorter list. -/
theorem length_filter_le_filter {α : Type} (p q : α → Bool) (l : List α)
    (h : ∀ a ∈ l, p a = true → q a = true) :
    (l.filter p).length ≤ (l.filter q).length := by
  induction l with
  | nil => simp
  | cons a l ih =>
      have ih' := ih (fun a ha => h a (List.mem_cons_of_mem _ ha))
      by_cases hp : p a = true
      · have hq := h a (List.mem_cons_self a l) hp
        simp [List.filter_cons, hp, hq]
        omega
      · have hp' : p a = false := by simpa using hp
        by_cases hq : q a = true
        · simp [List.filter_cons, hp', hq]
          omega
        · have hq' : q a = false := by simpa using hq
          simp [List.filter_cons, hp', hq']
          omega

theorem searchFocusNode_eq_lastMatch (q : Option String) (nodes : NodeTable) :
    searchFocusNode q nodes = (lastMatch q nodes).map (fun nd => nd.1) := by
  unfold searchFocusNode lastMatch
  rw [searchFocusNode_loop]
  cases (nodes.filter (fun nd => queryHits q nd.2.1)).getLast? <;> simp

/-! ### Concrete graphs used to instantiate the theorems -/

/-- Scenario data: two typed nodes (spec §8, Scenario A). -/
def wNodesA : NodeTable := [("1", "Alice", "PERSON"), ("2", "Acme", "ORG")]

/-- A 0.9-confidence edge between them. -/
def wEdgesA : List Edge := [⟨"1", "2", "works for", ⟨9, 10, by decide, by decide⟩⟩]

/-- Four persons; `lowEdge` fails the default confidence threshold while both
its endpoints gain degree 1 from the two 0.9 edges. -/
def wNodesB : NodeTable :=
  [("a", "Alice", "PERSON"), ("b", "Bob", "PERSON"),
   ("c", "Carol", "PERSON"), ("d", "Dan", "PERSON")]

/-- A 0.1-confidence edge, below the default threshold of 0.5. -/
def lowEdge : Edge := ⟨"a", "b", "knows", ⟨1, 10, by decide, by decide⟩⟩

/-- Two qualifying edges plus the sub-threshold `lowEdge`. -/
def wEdgesB : List Edge :=
  [⟨"a", "c", "knows", ⟨9, 10, by decide, by decide⟩⟩,
   ⟨"b", "d", "knows", ⟨9, 10, by decide, by decide⟩⟩,
   lowEdge]

/-! ### C1: referential integrity of the filter output -/

/-- C1: for every raw input and every filter configuration, every edge in the
edge list returned by `filter_graph_data` has both its source and its target
present as keys of the node map returned by the same call. -/
theorem filter_referential_integrity (cfg : FilterConfig) (raw : RawInput)
    (out : NodeTable × List Edge) (hok : filter_graph_data cfg raw = .ok out)
    (e : Edge) (he : e ∈ out.2) :
    containsKey out.1 e.source = true ∧ containsKey out.1 e.target = true := by
  cases raw with
  | pair nodes edges =>
      simp only [filter_graph_data, Except.ok.injEq] at hok
      subst hok
      simp only [filterGraphCore, filteredEdges, List.mem_filter,
        Bool.and_eq_true] at he
      exact he.2
  | tupleOfOtherLength n => simp [filter_graph_data] at hok
  | sizedNonTuple n => simp [filter_graph_data] at hok
  | unsizedNonTuple => simp [filter_graph_data] at hok

/-- C1 instantiated on Scenario A with the default configuration. -/
theorem filter_referential_integrity_witness :
    containsKey (filterGraphCore {} wNodesA wEdgesA).1 "1" = true ∧
    containsKey (filterGraphCore {} wNodesA wEdgesA).1 "2" = true :=
  filter_referential_integrity {} (RawInput.pair wNodesA wEdgesA) _ rfl
    ⟨"1", "2", "works for", ⟨9, 10, by decide, by decide⟩⟩ (by decide)

/-! ### C2: edge retention depends only on endpoint survival -/

/-- C2: an edge of the raw edge list appears in the filter output iff both of
its endpoints survived node filtering — independently of that edge's own
confidence, so an edge below `min_confidence` is still kept whenever both its
endpoints qualify through other edges. -/
theorem edge_kept_iff_endpoints_survive (cfg : FilterConfig) (nodes : NodeTable)
    (edges : List Edge) (e : Edge) (he : e ∈ edges) :
    e ∈ (filterGraphCore cfg nodes edges).2 ↔
      (containsKey (filteredNodes cfg nodes edges) e.source = true ∧
       containsKey (filteredNodes cfg nodes edges) e.target = true) := by
  simp only [filterGraphCore, filteredEdges, List.mem_filter, Bool.and_eq_true]
  tauto

/-- C2 instantiated: the sub-threshold `lowEdge` (0.1 < 0.5, contributing to
no degree) is in the default-configuration output iff its endpoints survive —
and they do, so it is kept. -/
theorem edge_kept_iff_endpoints_survive_witness :
    (lowEdge ∈ (filterGraphCore {} wNodesB wEdgesB).2 ↔
      (containsKey (filteredNodes {} wNodesB wEdgesB) lowEdge.source = true ∧
       containsKey (filteredNodes {} wNodesB wEdgesB) lowEdge.target = true)) ∧
    lowEdge ∈ (filterGraphCore {} wNodesB wEdgesB).2 :=
  ⟨edge_kept_iff_endpoints_survive {} wNodesB wEdgesB lowEdge (by decide),
   by decide⟩

/-! ### C10: a qualifying self-loop counts twice in the degree -/

/-- C10: in the degree computation, a self-loop with qualifying confidence
increments its node's counter once as source and once as target; hence a node
whose only qualifying incident edge is a single self-loop has degree 2. -/
theorem self_loop_degree_two (minConfidence : ℚ) (es : List Edge) (v : String)
    (e : Edge)
    (honly : es.filter (fun x => decide (minConfidence ≤ x.conf) &&
              (x.source == v || x.target == v)) = [e])
    (hs : e.source = v) (ht : e.target = v) :
    degreeCount es minConfidence v = 2 := by
  rw [degreeCount_eq]
  rw [sum_map_filter_of_zero (edgeContribution minConfidence v)
      (fun x => decide (minConfidence ≤ x.conf) && (x.source == v || x.target == v)) es ?hz]
  · rw [honly]
    have hmem : e ∈ es.filter (fun x => decide (minConfidence ≤ x.conf) &&
        (x.source == v || x.target == v)) := by
      rw [honly]; exact List.mem_singleton_self e
    have hq : minConfidence ≤ e.conf := by
      have := List.of_mem_filter hmem
      simp only [Bool.and_eq_true, decide_eq_true_eq] at this
      exact this.1
    simp [edgeContribution, hq, hs, ht]
  case hz =>
    intro a _ hpa
    simp only [Bool.and_eq_false_iff, decide_eq_false_iff_not,
      Bool.or_eq_false_iff, beq_eq_false_iff_ne] at hpa
    unfold edgeContribution
    rcases hpa with h | ⟨h₁, h₂⟩
    · simp [h]
    · simp [h₁, h₂]

/-- A single 0.9-confidence self-loop. -/
def selfLoopEdges : List Edge := [⟨"v", "v", "cites", ⟨9, 10, by decide, by decide⟩⟩]

/-- C10 instantiated: the node of a single qualifying self-loop has degree 2. -/
theorem self_loop_degree_two_witness :
    degreeCount selfLoopEdges ({} : FilterConfig).minConfidence "v" = 2 :=
  self_loop_degree_two ({} : FilterConfig).minConfidence selfLoopEdges "v"
    ⟨"v", "v", "cites", ⟨9, 10, by decide, by decide⟩⟩ (by decide) rfl rfl

/-! ### C3: which node types the filter can keep -/

/-- A DATE node carrying a qualifying self-loop, so its degree is 2. -/
def dateNodes : NodeTable := [("d1", "2021", "DATE")]

/-- The qualifying self-loop giving the DATE node degree 2. -/
def dateEdges : List Edge := [⟨"d1", "d1", "on", ⟨9, 10, by decide, by decide⟩⟩]

/-- C3 counterexample: under the default configuration (all four show flags
true), a DATE node whose degree 2 meets `min_degree = 1` is nevertheless
absent from the filtered node map — the type test only ever admits PERSON,
ORG, GPE and LAW. -/
theorem date_node_dropped :
    ({} : FilterConfig).minDegree
        ≤ (degreeCount dateEdges ({} : FilterConfig).minConfidence "d1" : ℚ) ∧
    containsKey (filterGraphCore {} dateNodes dateEdges).1 "d1" = false := by
  decide

/-- C3 amended: a node is kept iff its entity type passes the four-flag test
(`show_persons`/`show_orgs`/`show_gpe`/`show_laws` against exactly PERSON,
ORG, GPE, LAW — DATE or any other type is never kept) and its computed degree
is at least `min_degree`. -/
theorem node_kept_iff (cfg : FilterConfig) (nodes : NodeTable) (edges : List Edge)
    (v name ty : String) (hmem : (v, name, ty) ∈ nodes)
    (hnodup : (tableKeys nodes).Nodup) :
    containsKey (filteredNodes cfg nodes edges) v = true ↔
      (typeAllowed cfg ty = true ∧
       cfg.minDegree ≤ (degreeCount edges cfg.minConfidence v : ℚ)) := by
  have hinj := List.inj_on_of_nodup_map (f := fun nd : String × String × String => nd.1)
    (l := nodes) hnodup
  constructor
  · intro h
    simp only [containsKey, List.any_eq_true, beq_iff_eq] at h
    obtain ⟨nd, hndmem, hkey⟩ := h
    have hnd : nd ∈ nodes ∧ nodeKept cfg (degreeCount edges cfg.minConfidence) nd = true := by
      simpa [filteredNodes, List.mem_filter] using hndmem
    have heq : nd = (v, name, ty) := hinj hnd.1 hmem hkey
    have hkept := hnd.2
    rw [heq] at hkept
    simp only [nodeKept, Bool.and_eq_true, decide_eq_true_eq] at hkept
    exact hkept
  · rintro ⟨hty, hdeg⟩
    have hkept : nodeKept cfg (degreeCount edges cfg.minConfidence) (v, name, ty) = true := by
      simp only [nodeKept, Bool.and_eq_true, decide_eq_true_eq]
      exact ⟨hty, hdeg⟩
    simp only [containsKey, List.any_eq_true, beq_iff_eq]
    exact ⟨(v, name, ty), by simpa [filteredNodes, List.mem_filter] using ⟨hmem, hkept⟩, rfl⟩

/-- C3 amended, instantiated on Scenario A: node "1" (a PERSON of degree 1)
is kept under the default configuration. -/
theorem node_kept_iff_witness :
    (containsKey (filteredNodes {} wNodesA wEdgesA) "1" = true ↔
      (typeAllowed {} "PERSON" = true ∧
       ({} : FilterConfig).minDegree
         ≤ (degreeCount wEdgesA ({} : FilterConfig).minConfidence "1" : ℚ))) ∧
    containsKey (filteredNodes {} wNodesA wEdgesA) "1" = true :=
  ⟨node_kept_iff {} wNodesA wEdgesA "1" "Alice" "PERSON" (by decide) (by decide),
   by decide⟩

/-! ### C4: behavior at min_degree = 0 -/

/-- Two persons joined only by a sub-threshold edge. -/
def isoNodes : NodeTable := [("a", "Alice", "PERSON"), ("b", "Bob", "PERSON")]

/-- The single 0.1-confidence edge: it qualifies for no degree count. -/
def isoEdges : List Edge := [⟨"a", "b", "knows", ⟨1, 10, by decide, by decide⟩⟩]

/-- `min_degree = 0`, all other settings default. -/
def cfgZero : FilterConfig := { minDegree := 0 }

/-- C4 counterexample: with `min_degree = 0`, node "a" has qualifying degree 0
and is admitted, yet the filtered edge list contains an edge incident to it:
the sub-threshold edge survives because both endpoints were admitted. -/
theorem zero_degree_node_with_incident_edge :
    degreeCount isoEdges cfgZero.minConfidence "a" = 0 ∧
    containsKey (filterGraphCore cfgZero isoNodes isoEdges).1 "a" = true ∧
    (⟨"a", "b", "knows", ⟨1, 10, by decide, by decide⟩⟩ : Edge)
        ∈ (filterGraphCore cfgZero isoNodes isoEdges).2 := by
  decide

/-- C4 amended: with `min_degree = 0` every type-matching node is admitted
even at qualifying degree zero; a node with no incident edge in the raw edge
list has no incident edge in the filtered edge list (but an admitted
zero-qualifying-degree node may still have incident filtered edges coming
from sub-threshold edges whose two endpoints were both admitted). -/
theorem min_degree_zero_admission (cfg : FilterConfig) (hd : cfg.minDegree = 0)
    (nodes : NodeTable) (edges : List Edge) (nd : String × String × String)
    (hmem : nd ∈ nodes) (v : String)
    (hiso : ∀ e ∈ edges, e.source ≠ v ∧ e.target ≠ v) :
    (nd ∈ filteredNodes cfg nodes edges ↔ typeAllowed cfg nd.2.2 = true) ∧
    (∀ e ∈ (filterGraphCore cfg nodes edges).2, e.source ≠ v ∧ e.target ≠ v) := by
  constructor
  · simp only [filteredNodes, List.mem_filter, nodeKept, Bool.and_eq_true,
      decide_eq_true_eq, hd]
    have hcast : (0 : ℚ) ≤ (degreeCount edges cfg.minConfidence nd.1 : ℚ) := by
      exact_mod_cast Nat.zero_le _
    tauto
  · intro e he
    have h' : e ∈ filteredEdges (filteredNodes cfg nodes edges) edges := by
      simpa only [filterGraphCore] using he
    exact hiso e (List.mem_filter.1 h').1

/-- C4 amended, instantiated: with `min_degree = 0` the PERSON node "a" with
zero qualifying degree is admitted, and the node "z" (touched by no raw edge)
has no incident filtered edge. -/
theorem min_degree_zero_admission_witness :
    ((("a", "Alice", "PERSON") : String × String × String)
        ∈ filteredNodes cfgZero isoNodes isoEdges ↔ typeAllowed cfgZero "PERSON" = true) ∧
    (∀ e ∈ (filterGraphCore cfgZero isoNodes isoEdges).2, e.source ≠ "z" ∧ e.target ≠ "z") :=
  min_degree_zero_admission cfgZero rfl isoNodes isoEdges ("a", "Alice", "PERSON")
    (by decide) "z" (by decide)

/-! ### C5: the key set of the centrality map -/

/-- C5 counterexample: a nonempty node map with an empty edge list: the node
"a" is a filtered node, yet `compute_pagerank` returns the empty map (the
guard `if not nodes or not edges` fires), so "a" has no entry. -/
theorem pagerank_drops_isolated_node :
    ("a" ∈ tableKeys [("a", "Alice", "PERSON")]) ∧
    compute_pagerank_keys [("a", "Alice", "PERSON")] [] = [] := by
  decide

/-- C5 amended: on a filtered graph (edge endpoints are node keys), the
centrality map has exactly one entry per filtered node whenever both the node
map and the edge list are nonempty; when either is empty the result is the
empty map — in particular a nonempty node map with no edges yields the empty
map, not one entry per node. -/
theorem compute_pagerank_keys_spec (nodes : NodeTable) (edges : List Edge)
    (hri : ∀ e ∈ edges, e.source ∈ tableKeys nodes ∧ e.target ∈ tableKeys nodes) :
    (nodes = [] ∨ edges = [] → compute_pagerank_keys nodes edges = []) ∧
    (nodes ≠ [] → edges ≠ [] →
      (∀ v, v ∈ compute_pagerank_keys nodes edges ↔ v ∈ tableKeys nodes) ∧
      (compute_pagerank_keys nodes edges).Nodup) := by
  constructor
  · intro h
    unfold compute_pagerank_keys
    rcases h with h | h <;> simp [h]
  · intro hn he
    have hn' : nodes.isEmpty = false := by
      cases nodes with
      | nil => exact absurd rfl hn
      | cons a l => rfl
    have he' : edges.isEmpty = false := by
      cases edges with
      | nil => exact absurd rfl he
      | cons a l => rfl
    unfold compute_pagerank_keys
    rw [hn', he']
    simp only [Bool.or_self, Bool.false_eq_true, if_false]
    refine ⟨?_, List.nodup_dedup _⟩
    intro v
    rw [List.mem_dedup, List.mem_append]
    constructor
    · rintro (h | h)
      · exact h
      · obtain ⟨e, hmem, hv⟩ := (mem_endpointList edges v).1 h
        rcases hv with rfl | rfl
        · exact (hri e hmem).1
        · exact (hri e hmem).2
    · intro h
      exact Or.inl h

/-- C5 amended, instantiated on Scenario A: node "1" has an entry. -/
theorem compute_pagerank_keys_spec_witness :
    "1" ∈ compute_pagerank_keys wNodesA wEdgesA ↔ "1" ∈ tableKeys wNodesA :=
  ((compute_pagerank_keys_spec wNodesA wEdgesA (by decide)).2
    (by decide) (by decide)).1 "1"

/-! ### C6: search highlight and focus directive -/

theorem queryHits_eq_false_of_falsy (q : Option String) (hq : pyTruthy q = false)
    (nodeName : String) : queryHits q nodeName = false := by
  cases q with
  | none => rfl
  | some s =>
      have hs : (s == "") = true := by
        revert hq
        cases h : (s == "") <;> simp [pyTruthy, h]
      simp [queryHits, hs]

/-- A node whose id is the empty string: its name matches the query. -/
def emptyIdNodes : NodeTable := [("", "Alice", "PERSON")]

/-- C6 counterexample: the query "alice" case-insensitively matches the one
node's name — the node is recolored to the highlight color — yet no focus
directive is emitted: the matched node id "" is falsy, so the final
`if search_focus_node:` check skips the emission. -/
theorem focus_suppressed_for_empty_id :
    queryHits (some "alice") "Alice" = true ∧
    nodeColor (some "alice") ("", "Alice", "PERSON") = "#FFD700" ∧
    focusDirective (some "alice") emptyIdNodes = none := by
  decide

/-- C6 amended: an empty (or absent) query highlights nothing and emits no
focus directive; a node is recolored to "#FFD700" exactly when the query hits
its name; with no match there is no focus directive; and when matches exist
the last matching node in iteration order is emitted as the focus target with
zoom scale 2.0 — provided its node id is truthy (a matched empty-string id
suppresses the directive). -/
theorem search_focus_contract (q : Option String) (nodes : NodeTable) :
    (pyTruthy q = false →
      (∀ nd ∈ nodes, nodeColor q nd = colorFor nd.2.2) ∧
      focusDirective q nodes = none) ∧
    (∀ nd ∈ nodes, nodeColor q nd
        = (if queryHits q nd.2.1 = true then "#FFD700" else colorFor nd.2.2)) ∧
    (lastMatch q nodes = none → focusDirective q nodes = none) ∧
    (∀ nd, lastMatch q nodes = some nd →
      focusDirective q nodes = (if nd.1 = "" then none else some ⟨nd.1, 2⟩)) := by
  refine ⟨?_, ?_, ?_, ?_⟩
  · intro hq
    constructor
    · intro nd _
      simp [nodeColor, queryHits_eq_false_of_falsy q hq]
    · have hlast : lastMatch q nodes = none := by
        unfold lastMatch
        have hfil : nodes.filter (fun nd => queryHits q nd.2.1) = [] := by
          rw [List.filter_eq_nil_iff]
          intro nd _
          simp [queryHits_eq_false_of_falsy q hq]
        rw [hfil]
        rfl
      unfold focusDirective
      rw [searchFocusNode_eq_lastMatch, hlast]
      rfl
  · intro nd _
    rfl
  · intro h
    unfold focusDirective
    rw [searchFocusNode_eq_lastMatch, h]
    rfl
  · intro nd h
    unfold focusDirective
    rw [searchFocusNode_eq_lastMatch, h]
    by_cases hc : nd.1 = ""
    · simp [hc]
    · simp [hc]

/-- Two persons; the query "ali" hits both names, "n2" last. -/
def wNodesC : NodeTable := [("n1", "Alice", "PERSON"), ("n2", "Malice", "PERSON")]

/-- C6 amended, instantiated: over `wNodesC` the query "ali" focuses "n2",
the last match in iteration order, at zoom scale 2.0. -/
theorem search_focus_contract_witness :
    focusDirective (some "ali") wNodesC = some ⟨"n2", 2⟩ := by
  have h := (search_focus_contract (some "ali") wNodesC).2.2.2
    ("n2", "Malice", "PERSON") (by decide)
  simpa using h

/-! ### C7: the input-shape failure -/

/-- C7: evaluation of the guard.  A non-tuple without `__len__` fails with
`TypeError` (the error-message f-string calls `len(raw_data)`), not with the
input-shape `ValueError`; a non-tuple with a length and a wrong-length tuple
fail with the input-shape `ValueError`; the well-formed empty pair succeeds
with an empty filtered graph. -/
theorem input_shape_error_behavior :
    filter_graph_data {} RawInput.unsizedNonTuple = .error .typeError ∧
    filter_graph_data {} (RawInput.sizedNonTuple 3) = .error .valueError ∧
    filter_graph_data {} (RawInput.tupleOfOtherLength 3) = .error .valueError ∧
    filter_graph_data {} (RawInput.pair [] []) = .ok ([], []) :=
  ⟨rfl, rfl, rfl, rfl⟩

/-! ### C8: monotonicity in the two thresholds -/

/-- C8: with the type flags and confidence threshold fixed, raising
`min_degree` shrinks (never grows) the filtered node set, both as a subset
relation and in size; and raising `min_confidence` never increases any node's
computed degree. -/
theorem filter_monotonicity (cfg₁ cfg₂ : FilterConfig) (nodes : NodeTable)
    (edges : List Edge)
    (hp : cfg₂.showPersons = cfg₁.showPersons) (ho : cfg₂.showOrgs = cfg₁.showOrgs)
    (hg : cfg₂.showGpe = cfg₁.showGpe) (hl : cfg₂.showLaws = cfg₁.showLaws)
    (hconf : cfg₂.minConfidence = cfg₁.minConfidence)
    (hdeg : cfg₁.minDegree ≤ cfg₂.minDegree)
    (c₁ c₂ : ℚ) (hc : c₁ ≤ c₂) (v : String) :
    (filteredNodes cfg₂ nodes edges ⊆ filteredNodes cfg₁ nodes edges ∧
     (filteredNodes cfg₂ nodes edges).length
       ≤ (filteredNodes cfg₁ nodes edges).length) ∧
    degreeCount edges c₂ v ≤ degreeCount edges c₁ v := by
  have hkept : ∀ nd, nodeKept cfg₂ (degreeCount edges cfg₂.minConfidence) nd = true →
      nodeKept cfg₁ (degreeCount edges cfg₁.minConfidence) nd = true := by
    intro nd h
    simp only [nodeKept, typeAllowed, Bool.and_eq_true, decide_eq_true_eq,
      hp, ho, hg, hl, hconf] at h ⊢
    exact ⟨h.1, le_trans hdeg h.2⟩
  refine ⟨⟨?_, ?_⟩, ?_⟩
  · intro nd hmem
    simp only [filteredNodes, List.mem_filter] at hmem ⊢
    exact ⟨hmem.1, hkept nd hmem.2⟩
  · exact length_filter_le_filter _ _ nodes (fun nd _ => hkept nd)
  · rw [degreeCount_eq, degreeCount_eq]
    apply List.sum_le_sum
    intro e _
    unfold edgeContribution
    by_cases h2 : c₂ ≤ e.conf
    · have h1 : c₁ ≤ e.conf := le_trans hc h2
      simp [h1, h2]
    · simp [h2]

/-- Default configuration with `min_degree` raised to 2. -/
def cfgDeg2 : FilterConfig := { minDegree := 2 }

/-- C8 instantiated on Scenario A: raising `min_degree` from 1 to 2 shrinks
the node set, and raising `min_confidence` from 0 to 1 does not increase the
degree of node "1". -/
theorem filter_monotonicity_witness :
    (filteredNodes cfgDeg2 wNodesA wEdgesA ⊆ filteredNodes {} wNodesA wEdgesA ∧
     (filteredNodes cfgDeg2 wNodesA wEdgesA).length
       ≤ (filteredNodes {} wNodesA wEdgesA).length) ∧
    degreeCount wEdgesA 1 "1" ≤ degreeCount wEdgesA 0 "1" :=
  filter_monotonicity {} cfgDeg2 wNodesA wEdgesA rfl rfl rfl rfl rfl
    (by decide) 0 1 (by decide) "1"

end GraphRag
